import Mathlib

/-!
Verification development for the video-subtitle-remover backend.

The definitions below are shallow embeddings of:
* backend/api/models/task.py (TaskStatus, Task)
* backend/api/services/task_service.py (TaskService class methods)
* backend/api/routes/task.py (cancel_task route)
* backend/api/models/timed_subtitle.py (TimedSubtitleRegion, TimedSubtitleAnalysis)
* alternative_subtitle_detection.py (AlternativeSubtitleDetector analysis passes)
* backend/api/services/video_service.py (region normalization)

Python floats are modelled as rationals, datetime values as natural-number
timestamps, and the in-memory task dictionary as a function from task id to
an optional task.
-/

set_option maxRecDepth 100000

namespace VSR

/-- Task status enum from backend/api/models/task.py. -/
inductive TaskStatus
  | pending
  | detecting
  | processing
  | completed
  | failed
deriving DecidableEq, Repr

/-- The Task record fields that the task-service operations read or write
(id, status, progress, error_message, output_path, output_filename,
started_at, completed_at from backend/api/models/task.py). -/
structure Task where
  id : String
  status : TaskStatus
  progress : ℚ
  error_message : Option String
  output_path : Option String
  output_filename : Option String
  started_at : Option Nat
  completed_at : Option Nat
deriving DecidableEq, Repr

/-- The in-memory task store (TaskService._tasks dictionary). -/
def TaskStore : Type := String → Option Task

/-- In update_task_status: progress is written only when the argument is not None. -/
def applyProgress (progress : Option ℚ) (t : Task) : Task :=
  match progress with
  | some p => { t with progress := p }
  | none => t

/-- In update_task_status: error_message is written only when the argument is not None. -/
def applyErrorMessage (error_message : Option String) (t : Task) : Task :=
  match error_message with
  | some m => { t with error_message := some m }
  | none => t

/-- In update_task_status: output_path is written only when the argument is not None. -/
def applyOutputPath (output_path : Option String) (t : Task) : Task :=
  match output_path with
  | some p => { t with output_path := some p }
  | none => t

/-- In update_task_status: output_filename is written only when the argument is not None. -/
def applyOutputFilename (output_filename : Option String) (t : Task) : Task :=
  match output_filename with
  | some f => { t with output_filename := some f }
  | none => t

/-- Timestamp block of update_task_status: if the new status is PROCESSING and
started_at is unset, stamp started_at; otherwise if the new status is COMPLETED
or FAILED, stamp completed_at. -/
def applyTimestamps (status : TaskStatus) (now : Nat) (t : Task) : Task :=
  if status = TaskStatus.processing ∧ t.started_at = none then
    { t with started_at := some now }
  else if status = TaskStatus.completed ∨ status = TaskStatus.failed then
    { t with completed_at := some now }
  else t

/-- The task value produced by TaskService.update_task_status for an existing
task: the requested status is written unconditionally, the optional fields are
written when present, then the timestamp block runs. -/
def updatedTask (task : Task) (status : TaskStatus) (progress : Option ℚ)
    (error_message output_path output_filename : Option String) (now : Nat) : Task :=
  applyTimestamps status now
    (applyOutputFilename output_filename
      (applyOutputPath output_path
        (applyErrorMessage error_message
          (applyProgress progress { task with status := status }))))

/-- TaskService.update_task_status: returns None and leaves the store unchanged
when the task id is absent; otherwise writes the updated task back. -/
def update_task_status (store : TaskStore) (task_id : String) (status : TaskStatus)
    (progress : Option ℚ) (error_message output_path output_filename : Option String)
    (now : Nat) : Option Task × TaskStore :=
  match store task_id with
  | none => (none, store)
  | some task0 =>
    let t := updatedTask task0 status progress error_message output_path output_filename now
    (some t, fun k => if k = task_id then some t else store k)

/-- TaskService.update_task_progress: delegates to update_task_status with
status PROCESSING and the given progress. -/
def update_task_progress (store : TaskStore) (task_id : String) (progress : ℚ)
    (now : Nat) : Option Task × TaskStore :=
  update_task_status store task_id TaskStatus.processing (some progress) none none none now

/-- TaskService.cancel_task: updates the status to FAILED with a cancellation
error message; returns whether the task existed. -/
def service_cancel_task (store : TaskStore) (task_id : String) (now : Nat) :
    Bool × TaskStore :=
  let r := update_task_status store task_id TaskStatus.failed none
    (some "任务已被用户取消") none none now
  (r.1.isSome, r.2)

/-- Outcome of the cancel_task HTTP route. -/
inductive CancelOutcome
  | notFound
  | notProcessing
  | cancelled
deriving DecidableEq, Repr

/-- The cancel_task route from backend/api/routes/task.py: 404 when the task is
absent, 400 (and no store change) when the task is not PROCESSING, otherwise
TaskService.cancel_task runs. -/
def route_cancel_task (store : TaskStore) (task_id : String) (now : Nat) :
    CancelOutcome × TaskStore :=
  match store task_id with
  | none => (CancelOutcome.notFound, store)
  | some task0 =>
    if task0.status ≠ TaskStatus.processing then (CancelOutcome.notProcessing, store)
    else (CancelOutcome.cancelled, (service_cancel_task store task_id now).2)

/-- TimedSubtitleRegion from backend/api/models/timed_subtitle.py.
Frame numbers and pixel coordinates are Python ints; confidence (a Python
float) is modelled as a rational. -/
structure TimedSubtitleRegion where
  start_frame : Int
  end_frame : Int
  x : Int
  y : Int
  width : Int
  height : Int
  confidence : ℚ
  text_content : String
deriving DecidableEq, Repr

/-- TimedSubtitleAnalysis from backend/api/models/timed_subtitle.py. -/
structure TimedSubtitleAnalysis where
  has_subtitles : Bool
  subtitle_type : String
  timed_regions : List TimedSubtitleRegion
  total_frames : Int
  fps : ℚ
deriving DecidableEq, Repr

/-- Python's substring operator (needle in hay) on strings. -/
def pyStrIn (needle hay : String) : Bool :=
  decide (needle.toList <:+: hay.toList)

/-- Sorting key relation used by merge_overlapping_regions:
sorted(..., key=lambda r: r.start_frame). -/
def regionLE (a b : TimedSubtitleRegion) : Prop :=
  a.start_frame ≤ b.start_frame

instance : DecidableRel regionLE := fun a b => Int.decLe a.start_frame b.start_frame

instance : IsTotal TimedSubtitleRegion regionLE := ⟨fun a b => Int.le_total _ _⟩

instance : IsTrans TimedSubtitleRegion regionLE := ⟨fun _ _ _ h1 h2 => le_trans h1 h2⟩

/-- The merge condition of merge_overlapping_regions: spatial position is
similar (x within 20, y within 20, width within 30, height within 20) and the
candidate starts at most time_threshold frames after the last accepted region
ends. -/
def canMerge (last region : TimedSubtitleRegion) (time_threshold : Int) : Prop :=
  |region.x - last.x| ≤ 20 ∧ |region.y - last.y| ≤ 20 ∧
  |region.width - last.width| ≤ 30 ∧ |region.height - last.height| ≤ 20 ∧
  region.start_frame - last.end_frame ≤ time_threshold

instance (last region : TimedSubtitleRegion) (tt : Int) :
    Decidable (canMerge last region tt) := by
  unfold canMerge
  exact inferInstance

/-- The merge action of merge_overlapping_regions: the last accepted region
takes the candidate's end_frame, the averaged confidence, and the candidate's
text is appended when non-empty and not already a substring. -/
def mergeInto (last region : TimedSubtitleRegion) : TimedSubtitleRegion :=
  { last with
    end_frame := region.end_frame
    confidence := (last.confidence + region.confidence) / 2
    text_content :=
      if region.text_content ≠ "" ∧ pyStrIn region.text_content last.text_content = false then
        last.text_content ++ " | " ++ region.text_content
      else last.text_content }

/-- The walk over the sorted region list in merge_overlapping_regions, carrying
the current last-accepted region (merged[-1]). -/
def mergeLoop (tt : Int) : TimedSubtitleRegion → List TimedSubtitleRegion →
    List TimedSubtitleRegion
  | last, [] => [last]
  | last, r :: rs =>
    if canMerge last r tt then mergeLoop tt (mergeInto last r) rs
    else last :: mergeLoop tt r rs

/-- The loop of merge_overlapping_regions applied to an already-sorted list. -/
def mergeSortedList (tt : Int) : List TimedSubtitleRegion → List TimedSubtitleRegion
  | [] => []
  | r :: rs => mergeLoop tt r rs

/-- merge_overlapping_regions on the region list: stable sort by start_frame,
then the merge walk. -/
def merge_regions_list (tt : Int) (regions : List TimedSubtitleRegion) :
    List TimedSubtitleRegion :=
  mergeSortedList tt (List.insertionSort regionLE regions)

/-- TimedSubtitleAnalysis.merge_overlapping_regions: returns early when the
region list is empty, otherwise replaces timed_regions with the merged list. -/
def merge_overlapping_regions (tt : Int) (a : TimedSubtitleAnalysis) :
    TimedSubtitleAnalysis :=
  if a.timed_regions = [] then a
  else { a with timed_regions := merge_regions_list tt a.timed_regions }

/-- Python's int() truncation toward zero on a rational value, computed on the
normalized fraction. -/
def pyInt (q : ℚ) : Int :=
  Int.tdiv q.num q.den

/-- Floor of a rational, computed on the normalized fraction. -/
def ratFloor (q : ℚ) : Int :=
  Int.fdiv q.num q.den

lemma ratFloor_eq (q : ℚ) : ratFloor q = ⌊q⌋ := by
  rw [Rat.floor_def]
  exact Int.fdiv_eq_ediv q.num (by positivity)

lemma pyInt_eq_floor (q : ℚ) (h : 0 ≤ q) : pyInt q = ⌊q⌋ := by
  rw [Rat.floor_def]
  exact Int.tdiv_eq_ediv (Rat.num_nonneg.mpr h) (by positivity)

/-- Python's min over a non-empty int list ([] is a ValueError in Python and
unreachable in the embedded call sites; 0 is returned there). -/
def pyMin : List Int → Int
  | [] => 0
  | a :: rest => rest.foldl min a

/-- Python's max over a non-empty int list (same convention as pyMin). -/
def pyMax : List Int → Int
  | [] => 0
  | a :: rest => rest.foldl max a

/-- np.mean over a rational list (exact arithmetic model of the float mean;
[] is unreachable at the embedded call sites). -/
def ratMean (l : List ℚ) : ℚ :=
  l.sum / l.length

/-- The video properties read by AlternativeSubtitleDetector from the capture:
width, height, fps, total_frames. -/
structure VideoInfo where
  width : Int
  height : Int
  fps : ℚ
  total_frames : Int
deriving DecidableEq, Repr

/-- A detection hit collected by method1_ocr_based_detection (the dict with
frame_no, x, y, width, height, text, confidence). -/
structure OcrHit where
  frame_no : Int
  x : Int
  y : Int
  width : Int
  height : Int
  text : String
  confidence : ℚ
deriving DecidableEq, Repr

/-- Python's enumerate over a list, starting at the given index. -/
def pyEnum {α : Type} : Nat → List α → List (Nat × α)
  | _, [] => []
  | n, a :: rest => (n, a) :: pyEnum (n + 1) rest

/-- The similarity test of _cluster_regions: all four coordinate differences
strictly below the distance threshold. -/
def hitCompatible (r1 r2 : OcrHit) (thr : Int) : Prop :=
  |r1.x - r2.x| < thr ∧ |r1.y - r2.y| < thr ∧
  |r1.width - r2.width| < thr ∧ |r1.height - r2.height| < thr

instance (r1 r2 : OcrHit) (thr : Int) : Decidable (hitCompatible r1 r2 thr) := by
  unfold hitCompatible
  exact inferInstance

/-- Inner loop of _cluster_regions: scan all indexed hits, adding every not-yet
used hit compatible with the cluster seed to the cluster and to the used set. -/
def clusterInner (r1 : OcrHit) (thr : Int) :
    List (Nat × OcrHit) → List OcrHit → List Nat → List OcrHit × List Nat
  | [], cluster, used => (cluster, used)
  | jp :: rest, cluster, used =>
    if jp.1 ∈ used then clusterInner r1 thr rest cluster used
    else if hitCompatible r1 jp.2 thr then
      clusterInner r1 thr rest (cluster ++ [jp.2]) (jp.1 :: used)
    else clusterInner r1 thr rest cluster used

/-- Outer loop of _cluster_regions: each unused hit seeds a cluster (it is
marked used before the inner scan); non-empty clusters are appended. -/
def clusterOuter (thr : Int) (pairs : List (Nat × OcrHit)) :
    List (Nat × OcrHit) → List (List OcrHit) → List Nat → List (List OcrHit)
  | [], clusters, _ => clusters
  | ip :: rest, clusters, used =>
    if ip.1 ∈ used then clusterOuter thr pairs rest clusters used
    else
      let res := clusterInner ip.2 thr pairs [ip.2] (ip.1 :: used)
      if res.1 = [] then clusterOuter thr pairs rest clusters res.2
      else clusterOuter thr pairs rest (clusters ++ [res.1]) res.2

/-- _cluster_regions with its default distance_threshold of 50. -/
def cluster_regions (regions : List OcrHit) (thr : Int) : List (List OcrHit) :=
  let pairs := pyEnum 0 regions
  clusterOuter thr pairs pairs [] []

/-- Cluster-to-region construction of _analyze_ocr_results: min/max hit frame,
truncated means of the hit boxes and confidences, time range expanded by
int(fps * 2.5) // 2 on each side and clipped to [0, total_frames - 1]. -/
def regionOfOcrCluster (info : VideoInfo) (cluster : List OcrHit) :
    TimedSubtitleRegion :=
  let frames := cluster.map OcrHit.frame_no
  let start_frame := pyMin frames
  let end_frame := pyMax frames
  let avg_x := pyInt (ratMean (cluster.map (fun r => (r.x : ℚ))))
  let avg_y := pyInt (ratMean (cluster.map (fun r => (r.y : ℚ))))
  let avg_w := pyInt (ratMean (cluster.map (fun r => (r.width : ℚ))))
  let avg_h := pyInt (ratMean (cluster.map (fun r => (r.height : ℚ))))
  let avg_conf := ratMean (cluster.map OcrHit.confidence)
  let duration_frames := pyInt (info.fps * (5 / 2 : ℚ))
  let expanded_start := max 0 (start_frame - Int.fdiv duration_frames 2)
  let expanded_end := min (info.total_frames - 1) (end_frame + Int.fdiv duration_frames 2)
  { start_frame := expanded_start
    end_frame := expanded_end
    x := avg_x
    y := avg_y
    width := avg_w
    height := avg_h
    confidence := avg_conf
    text_content := "OCR检测区域 (帧" ++ toString start_frame ++ "-" ++ toString end_frame ++ ")" }

/-- _analyze_ocr_results: empty input gives the empty analysis, otherwise one
region per cluster of _cluster_regions (default threshold 50). -/
def analyze_ocr_results (info : VideoInfo) (regions : List OcrHit) :
    List TimedSubtitleRegion :=
  if regions = [] then []
  else (cluster_regions regions 50).map (regionOfOcrCluster info)

/-- A detection hit collected by method2_edge_detection (frame_no, x, y in
full-frame coordinates, width, height, area, aspect_ratio). -/
structure EdgeHit where
  frame_no : Int
  x : Int
  y : Int
  width : Int
  height : Int
  area : ℚ
  aspect_ratio : ℚ
deriving DecidableEq, Repr

/-- Bucket key of _analyze_edge_results: frame_no // int(fps * 2). -/
def edgeKey (info : VideoInfo) (h : EdgeHit) : Int :=
  Int.fdiv h.frame_no (pyInt (info.fps * 2))

/-- First-occurrence deduplication, the key order of a Python dict built by
insertion. -/
def firstUniq : List Int → List Int
  | [] => []
  | a :: rest => a :: firstUniq (rest.filter (fun b => b ≠ a))
termination_by l => l.length
decreasing_by
  simp only [List.length_cons]
  exact Nat.lt_succ_of_le (List.length_filter_le _ _)

/-- The time_groups dict of _analyze_edge_results: hits grouped by bucket key,
keys in first-insertion order, members in input order. -/
def edgeGroups (info : VideoInfo) (hits : List EdgeHit) : List (List EdgeHit) :=
  (firstUniq (hits.map (edgeKey info))).map
    (fun k => hits.filter (fun h => edgeKey info h = k))

/-- Group-to-region construction of _analyze_edge_results: min/max hit frame,
union box (min x/y to max x+width / y+height), time range expanded by
int(fps * 3) // 2 on each side and clipped to [0, total_frames - 1]. -/
def regionOfEdgeGroup (info : VideoInfo) (group : List EdgeHit) :
    TimedSubtitleRegion :=
  let frames := group.map EdgeHit.frame_no
  let start_frame := pyMin frames
  let end_frame := pyMax frames
  let min_x := pyMin (group.map EdgeHit.x)
  let max_x := pyMax (group.map (fun r => r.x + r.width))
  let min_y := pyMin (group.map EdgeHit.y)
  let max_y := pyMax (group.map (fun r => r.y + r.height))
  let duration_frames := pyInt (info.fps * 3)
  let expanded_start := max 0 (start_frame - Int.fdiv duration_frames 2)
  let expanded_end := min (info.total_frames - 1) (end_frame + Int.fdiv duration_frames 2)
  { start_frame := expanded_start
    end_frame := expanded_end
    x := min_x
    y := min_y
    width := max_x - min_x
    height := max_y - min_y
    confidence := 7 / 10
    text_content := "边缘检测区域 (帧" ++ toString start_frame ++ "-" ++ toString end_frame ++ ")" }

/-- _analyze_edge_results: empty input gives the empty analysis; a bucket
produces a region only when it holds at least two hits. -/
def analyze_edge_results (info : VideoInfo) (hits : List EdgeHit) :
    List TimedSubtitleRegion :=
  if hits = [] then []
  else (edgeGroups info hits).filterMap
    (fun g => if 2 ≤ g.length then some (regionOfEdgeGroup info g) else none)

/-- A change event collected by method5_motion_analysis (the dict with
frame_no, change_ratio, prev_frame_no). -/
structure ChangeEvent where
  frame_no : Int
  change_ratio : ℚ
  prev_frame_no : Int
deriving DecidableEq, Repr

/-- A subtitle segment dict of _analyze_motion_results (keys start, end,
changes). -/
structure MotionSegment where
  start : Int
  stop : Int
  changes : Nat
deriving DecidableEq, Repr

/-- One iteration of the loop in _analyze_motion_results. The state is the
segments list and current_start. current_start is initialized from the first
event; the gap test compares against the end of the last appended segment and
only runs when a segment was already appended. -/
def motionStep (fps : ℚ) (st : List MotionSegment × Option Int) (c : ChangeEvent) :
    List MotionSegment × Option Int :=
  let cs : Option Int :=
    match st.2 with
    | none => some c.frame_no
    | some s => some s
  match st.1.getLast? with
  | none => (st.1, cs)
  | some lastSeg =>
    if ((c.frame_no - lastSeg.stop : Int) : ℚ) > fps * 5 then
      match cs with
      | some s => (st.1 ++ [⟨s, c.frame_no, 1⟩], some c.frame_no)
      | none => (st.1, cs)
    else (st.1, cs)

/-- The segment list computed by _analyze_motion_results: the event loop, then
the final segment appended from current_start to the last event with the total
event count. -/
def motionSegments (fps : ℚ) (changes : List ChangeEvent) : List MotionSegment :=
  let st := changes.foldl (motionStep fps) ([], none)
  match st.2, changes.getLast? with
  | some s, some lastC => st.1 ++ [⟨s, lastC.frame_no, changes.length⟩]
  | _, _ => st.1

/-- _analyze_motion_results: empty input gives the empty analysis; a segment
produces a region only when it counts at least two changes; the box is the
fixed lower-frame heuristic rectangle. -/
def analyze_motion_results (info : VideoInfo) (changes : List ChangeEvent) :
    List TimedSubtitleRegion :=
  if changes = [] then []
  else (motionSegments info.fps changes).filterMap
    (fun seg =>
      if 2 ≤ seg.changes then
        some { start_frame := seg.start
               end_frame := seg.stop
               x := pyInt ((info.width : ℚ) * (1 / 10))
               y := pyInt ((info.height : ℚ) * (4 / 5))
               width := pyInt ((info.width : ℚ) * (4 / 5))
               height := pyInt ((info.height : ℚ) * (3 / 20))
               confidence := 3 / 5
               text_content := "运动检测区域 (帧" ++ toString seg.start ++ "-" ++ toString seg.stop ++ ")" }
      else none)

/-- Region normalization of VideoService._process_video_sync: a 4-element
[x1,y1,x2,y2] entry becomes (min y, max y, min x, max x); entries of any other
arity are logged and skipped. -/
def normalize_regions (subtitle_regions : List (List Int)) :
    List (Int × Int × Int × Int) :=
  subtitle_regions.filterMap
    (fun region =>
      match region with
      | [x1, y1, x2, y2] => some (min y1 y2, max y1 y2, min x1 x2, max x1 x2)
      | _ => none)

lemma applyProgress_status (p : Option ℚ) (t : Task) :
    (applyProgress p t).status = t.status := by
  cases p <;> rfl

lemma applyErrorMessage_status (m : Option String) (t : Task) :
    (applyErrorMessage m t).status = t.status := by
  cases m <;> rfl

lemma applyOutputPath_status (p : Option String) (t : Task) :
    (applyOutputPath p t).status = t.status := by
  cases p <;> rfl

lemma applyOutputFilename_status (f : Option String) (t : Task) :
    (applyOutputFilename f t).status = t.status := by
  cases f <;> rfl

lemma applyTimestamps_status (s : TaskStatus) (now : Nat) (t : Task) :
    (applyTimestamps s now t).status = t.status := by
  unfold applyTimestamps
  split
  · rfl
  · split <;> rfl

lemma applyProgress_started_at (p : Option ℚ) (t : Task) :
    (applyProgress p t).started_at = t.started_at := by
  cases p <;> rfl

lemma applyErrorMessage_started_at (m : Option String) (t : Task) :
    (applyErrorMessage m t).started_at = t.started_at := by
  cases m <;> rfl

lemma applyOutputPath_started_at (p : Option String) (t : Task) :
    (applyOutputPath p t).started_at = t.started_at := by
  cases p <;> rfl

lemma applyOutputFilename_started_at (f : Option String) (t : Task) :
    (applyOutputFilename f t).started_at = t.started_at := by
  cases f <;> rfl

lemma applyTimestamps_started_at_of_some (s : TaskStatus) (now t0 : Nat) (t : Task)
    (h : t.started_at = some t0) :
    (applyTimestamps s now t).started_at = some t0 := by
  unfold applyTimestamps
  rw [if_neg]
  · split
    · exact h
    · exact h
  · intro hc
    rw [h] at hc
    exact Option.noConfusion hc.2

lemma applyErrorMessage_progress (m : Option String) (t : Task) :
    (applyErrorMessage m t).progress = t.progress := by
  cases m <;> rfl

lemma applyOutputPath_progress (p : Option String) (t : Task) :
    (applyOutputPath p t).progress = t.progress := by
  cases p <;> rfl

lemma applyOutputFilename_progress (f : Option String) (t : Task) :
    (applyOutputFilename f t).progress = t.progress := by
  cases f <;> rfl

lemma applyTimestamps_progress (s : TaskStatus) (now : Nat) (t : Task) :
    (applyTimestamps s now t).progress = t.progress := by
  unfold applyTimestamps
  split
  · rfl
  · split <;> rfl

lemma updatedTask_status (task : Task) (s : TaskStatus) (pr : Option ℚ)
    (em op ofn : Option String) (now : Nat) :
    (updatedTask task s pr em op ofn now).status = s := by
  unfold updatedTask
  rw [applyTimestamps_status, applyOutputFilename_status, applyOutputPath_status,
    applyErrorMessage_status, applyProgress_status]

lemma updatedTask_progress (task : Task) (s : TaskStatus) (p : ℚ)
    (em op ofn : Option String) (now : Nat) :
    (updatedTask task s (some p) em op ofn now).progress = p := by
  unfold updatedTask
  rw [applyTimestamps_progress, applyOutputFilename_progress, applyOutputPath_progress,
    applyErrorMessage_progress]
  rfl

lemma updatedTask_started_at (task : Task) (s : TaskStatus) (pr : Option ℚ)
    (em op ofn : Option String) (now t0 : Nat) (h : task.started_at = some t0) :
    (updatedTask task s pr em op ofn now).started_at = some t0 := by
  have hinner :
      (applyOutputFilename ofn (applyOutputPath op (applyErrorMessage em
        (applyProgress pr { task with status := s })))).started_at = some t0 := by
    rw [applyOutputFilename_started_at, applyOutputPath_started_at,
      applyErrorMessage_started_at, applyProgress_started_at]
    exact h
  unfold updatedTask
  exact applyTimestamps_started_at_of_some s now t0 _ hinner

lemma update_task_status_of_mem (store : TaskStore) (tid : String) (s : TaskStatus)
    (pr : Option ℚ) (em op ofn : Option String) (now : Nat) (task : Task)
    (h : store tid = some task) :
    update_task_status store tid s pr em op ofn now =
      (some (updatedTask task s pr em op ofn now),
       fun k => if k = tid then some (updatedTask task s pr em op ofn now) else store k) := by
  unfold update_task_status
  rw [h]

/-- A concrete COMPLETED task used as a counterexample input. -/
def task0 : Task :=
  { id := "t", status := TaskStatus.completed, progress := 100, error_message := none,
    output_path := none, output_filename := none, started_at := some 1,
    completed_at := some 2 }

/-- A store holding only task0. -/
def store0 : TaskStore := fun k => if k = "t" then some task0 else none

/-- A concrete PROCESSING task whose started_at is already set. -/
def task1 : Task :=
  { task0 with status := TaskStatus.processing, started_at := some 3 }

/-- A store holding only task1. -/
def store1 : TaskStore := fun k => if k = "t" then some task1 else none

/-- A concrete freshly-submitted PENDING task. -/
def task2 : Task :=
  { task0 with
    status := TaskStatus.pending
    progress := 0
    started_at := none
    completed_at := none }

/-- A store holding only task2. -/
def store2 : TaskStore := fun k => if k = "t" then some task2 else none

/-- C1 (counterexample): a stored COMPLETED task asked to move to PENDING is
not rejected — the stored status becomes PENDING, so a transition out of
COMPLETED changes the stored status, contradicting the claim. -/
theorem claim_C1_counterexample :
    task0.status = TaskStatus.completed ∧
    ((update_task_status store0 ("t") TaskStatus.pending none none none none 5).2
        ("t")).map Task.status = some TaskStatus.pending ∧
    TaskStatus.pending ≠ TaskStatus.completed := by
  refine ⟨rfl, ?_, by decide⟩
  decide

/-- C1 (amended): TaskService.update_task_status performs no transition
validation: for every stored task and every requested status (including
requests that leave COMPLETED or FAILED), the request is accepted and the
stored status becomes exactly the requested status. -/
theorem claim_C1_amended (store : TaskStore) (tid : String) (s : TaskStatus)
    (pr : Option ℚ) (em op ofn : Option String) (now : Nat) (task : Task)
    (h : store tid = some task) :
    ∃ t : Task,
      (update_task_status store tid s pr em op ofn now).1 = some t ∧
      (update_task_status store tid s pr em op ofn now).2 tid = some t ∧
      t.status = s := by
  refine ⟨updatedTask task s pr em op ofn now, ?_, ?_, updatedTask_status task s pr em op ofn now⟩
  · rw [update_task_status_of_mem store tid s pr em op ofn now task h]
  · rw [update_task_status_of_mem store tid s pr em op ofn now task h]
    simp

/-- C1 (witness for the amended theorem): the amended theorem applied to the
concrete store holding a COMPLETED task and a PENDING request. -/
theorem claim_C1_amended_witness :
    store0 ("t") = some task0 ∧
    (∃ t : Task,
      (update_task_status store0 ("t") TaskStatus.pending none none none none 5).1 = some t ∧
      (update_task_status store0 ("t") TaskStatus.pending none none none none 5).2 ("t") = some t ∧
      t.status = TaskStatus.pending) :=
  ⟨by decide, claim_C1_amended store0 ("t") TaskStatus.pending none none none none 5 task0 (by decide)⟩

/-- C2: update_task_progress on any stored task unconditionally sets the status
to PROCESSING and writes the given progress, whatever the current status
(in particular COMPLETED or FAILED tasks move back to PROCESSING). -/
theorem claim_C2_progress_forces_processing (store : TaskStore) (tid : String)
    (p : ℚ) (now : Nat) (task : Task) (h : store tid = some task) :
    ∃ t : Task,
      (update_task_progress store tid p now).1 = some t ∧
      (update_task_progress store tid p now).2 tid = some t ∧
      t.status = TaskStatus.processing ∧ t.progress = p := by
  refine ⟨updatedTask task TaskStatus.processing (some p) none none none now, ?_, ?_, ?_, ?_⟩
  · unfold update_task_progress
    rw [update_task_status_of_mem store tid TaskStatus.processing (some p) none none none now task h]
  · unfold update_task_progress
    rw [update_task_status_of_mem store tid TaskStatus.processing (some p) none none none now task h]
    simp
  · exact updatedTask_status task TaskStatus.processing (some p) none none none now
  · exact updatedTask_progress task TaskStatus.processing p none none none now

/-- C2 (witness): the theorem applied to the concrete store holding a
COMPLETED task: the cancelled/completed task moves back to PROCESSING. -/
theorem claim_C2_witness :
    store0 ("t") = some task0 ∧ task0.status = TaskStatus.completed ∧
    (∃ t : Task,
      (update_task_progress store0 ("t") 50 7).1 = some t ∧
      (update_task_progress store0 ("t") 50 7).2 ("t") = some t ∧
      t.status = TaskStatus.processing ∧ t.progress = 50) :=
  ⟨by decide, rfl, claim_C2_progress_forces_processing store0 ("t") 50 7 task0 (by decide)⟩

/-- C8: once started_at is set, a later update to PROCESSING (re-entry or
re-signal) leaves it unchanged, so started_at is never overwritten. -/
theorem claim_C8_started_at_set_once (store : TaskStore) (tid : String)
    (pr : Option ℚ) (em op ofn : Option String) (now : Nat) (task : Task) (t0 : Nat)
    (h : store tid = some task) (hs : task.started_at = some t0) :
    ∃ t : Task,
      (update_task_status store tid TaskStatus.processing pr em op ofn now).1 = some t ∧
      (update_task_status store tid TaskStatus.processing pr em op ofn now).2 tid = some t ∧
      t.started_at = some t0 := by
  refine ⟨updatedTask task TaskStatus.processing pr em op ofn now, ?_, ?_,
    updatedTask_started_at task TaskStatus.processing pr em op ofn now t0 hs⟩
  · rw [update_task_status_of_mem store tid TaskStatus.processing pr em op ofn now task h]
  · rw [update_task_status_of_mem store tid TaskStatus.processing pr em op ofn now task h]
    simp

/-- C8 (witness): the theorem applied to a concrete PROCESSING task whose
started_at is already 3; a re-signal at time 9 keeps started_at = 3. -/
theorem claim_C8_witness :
    store1 ("t") = some task1 ∧ task1.started_at = some 3 ∧
    (∃ t : Task,
      (update_task_status store1 ("t") TaskStatus.processing none none none none 9).1 = some t ∧
      (update_task_status store1 ("t") TaskStatus.processing none none none none 9).2 ("t") = some t ∧
      t.started_at = some 3) :=
  ⟨by decide, rfl,
    claim_C8_started_at_set_once store1 ("t") none none none none 9 task1 3 (by decide) rfl⟩

/-- C10: the cancel route rejects a stored task that is not PROCESSING with the
not-in-correct-state outcome and returns the store unchanged. -/
theorem claim_C10_cancel_requires_processing (store : TaskStore) (tid : String)
    (now : Nat) (task : Task) (h : store tid = some task)
    (hne : task.status ≠ TaskStatus.processing) :
    route_cancel_task store tid now = (CancelOutcome.notProcessing, store) := by
  unfold route_cancel_task
  rw [h]
  exact if_pos hne

/-- C10 (witness): the theorem applied to a concrete freshly-submitted PENDING
task: cancellation is rejected and the store is returned unchanged. -/
theorem claim_C10_witness :
    store2 ("t") = some task2 ∧ task2.status ≠ TaskStatus.processing ∧
    route_cancel_task store2 ("t") 9 = (CancelOutcome.notProcessing, store2) :=
  ⟨by decide, by decide,
    claim_C10_cancel_requires_processing store2 ("t") 9 task2 (by decide) (by decide)⟩

/-- Two consecutive merge-output regions can never merge again. -/
def noMerge (tt : Int) (a b : TimedSubtitleRegion) : Prop := ¬ canMerge a b tt

lemma mergeLoop_head (tt : Int) :
    ∀ (rs : List TimedSubtitleRegion) (last : TimedSubtitleRegion),
      ∃ h0 t0, mergeLoop tt last rs = h0 :: t0 ∧
        h0.x = last.x ∧ h0.y = last.y ∧ h0.width = last.width ∧
        h0.height = last.height ∧ h0.start_frame = last.start_frame
  | [], last => ⟨last, [], rfl, rfl, rfl, rfl, rfl, rfl⟩
  | r :: rs, last => by
    by_cases hc : canMerge last r tt
    · obtain ⟨h0, t0, heq, hx, hy, hw, hh, hs⟩ := mergeLoop_head tt rs (mergeInto last r)
      refine ⟨h0, t0, ?_, hx, hy, hw, hh, hs⟩
      simp only [mergeLoop]
      rw [if_pos hc]
      exact heq
    · refine ⟨last, mergeLoop tt r rs, ?_, rfl, rfl, rfl, rfl, rfl⟩
      simp only [mergeLoop]
      rw [if_neg hc]

lemma canMerge_congr_right (last r r' : TimedSubtitleRegion) (tt : Int)
    (hx : r'.x = r.x) (hy : r'.y = r.y) (hw : r'.width = r.width)
    (hh : r'.height = r.height) (hs : r'.start_frame = r.start_frame) :
    canMerge last r' tt ↔ canMerge last r tt := by
  unfold canMerge
  rw [hx, hy, hw, hh, hs]

lemma mergeLoop_chain_noMerge (tt : Int) :
    ∀ (rs : List TimedSubtitleRegion) (last : TimedSubtitleRegion),
      List.Chain' (noMerge tt) (mergeLoop tt last rs)
  | [], last => by simp [mergeLoop]
  | r :: rs, last => by
    by_cases hc : canMerge last r tt
    · simp only [mergeLoop]
      rw [if_pos hc]
      exact mergeLoop_chain_noMerge tt rs (mergeInto last r)
    · simp only [mergeLoop]
      rw [if_neg hc]
      obtain ⟨h0, t0, heq, hx, hy, hw, hh, hs⟩ := mergeLoop_head tt rs r
      rw [heq]
      refine List.Chain'.cons ?_ (heq ▸ mergeLoop_chain_noMerge tt rs r)
      intro hcm
      exact hc ((canMerge_congr_right last r h0 tt hx hy hw hh hs).mp hcm)

lemma mergeLoop_chain_le (tt : Int) :
    ∀ (rs : List TimedSubtitleRegion) (last : TimedSubtitleRegion),
      List.Chain' regionLE (last :: rs) → List.Chain' regionLE (mergeLoop tt last rs)
  | [], last => fun _ => by simp [mergeLoop]
  | r :: rs, last => fun hch => by
    have h1 : regionLE last r := (List.chain'_cons.mp hch).1
    have h2 : List.Chain' regionLE (r :: rs) := (List.chain'_cons.mp hch).2
    by_cases hc : canMerge last r tt
    · simp only [mergeLoop]
      rw [if_pos hc]
      apply mergeLoop_chain_le tt rs (mergeInto last r)
      rcases rs with _ | ⟨b, rs'⟩
      · simp
      · have h3 : regionLE r b := (List.chain'_cons.mp h2).1
        exact List.Chain'.cons (le_trans h1 h3 : regionLE (mergeInto last r) b)
          (List.chain'_cons.mp h2).2
    · simp only [mergeLoop]
      rw [if_neg hc]
      obtain ⟨h0, t0, heq, hx, hy, hw, hh, hs⟩ := mergeLoop_head tt rs r
      rw [heq]
      refine List.Chain'.cons ?_ (heq ▸ mergeLoop_chain_le tt rs r h2)
      show last.start_frame ≤ h0.start_frame
      rw [hs]
      exact h1

lemma mergeLoop_id_of_noMerge (tt : Int) :
    ∀ (rs : List TimedSubtitleRegion) (last : TimedSubtitleRegion),
      List.Chain' (noMerge tt) (last :: rs) → mergeLoop tt last rs = last :: rs
  | [], _ => fun _ => rfl
  | r :: rs, last => fun hch => by
    have h1 : noMerge tt last r := (List.chain'_cons.mp hch).1
    simp only [mergeLoop]
    rw [if_neg h1]
    rw [mergeLoop_id_of_noMerge tt rs r (List.chain'_cons.mp hch).2]

lemma merge_regions_list_idem (tt : Int) (R : List TimedSubtitleRegion) :
    merge_regions_list tt (merge_regions_list tt R) = merge_regions_list tt R := by
  unfold merge_regions_list
  rcases hS : List.insertionSort regionLE R with _ | ⟨r, rs⟩
  · simp [mergeSortedList]
  · have hsorted : List.Sorted regionLE (r :: rs) := by
      rw [← hS]
      exact List.sorted_insertionSort regionLE R
    have hchainLE : List.Chain' regionLE (r :: rs) := List.chain'_iff_pairwise.mpr hsorted
    have hMLE : List.Chain' regionLE (mergeLoop tt r rs) := mergeLoop_chain_le tt rs r hchainLE
    have hMsorted : List.Sorted regionLE (mergeLoop tt r rs) :=
      List.chain'_iff_pairwise.mp hMLE
    have hSortEq : List.insertionSort regionLE (mergeLoop tt r rs) = mergeLoop tt r rs :=
      List.Sorted.insertionSort_eq hMsorted
    show mergeSortedList tt (List.insertionSort regionLE (mergeLoop tt r rs)) =
      mergeLoop tt r rs
    rw [hSortEq]
    obtain ⟨h0, t0, heq, _, _, _, _, _⟩ := mergeLoop_head tt rs r
    have hNM : List.Chain' (noMerge tt) (mergeLoop tt r rs) := mergeLoop_chain_noMerge tt rs r
    rw [heq]
    show mergeLoop tt h0 t0 = h0 :: t0
    exact mergeLoop_id_of_noMerge tt t0 h0 (heq ▸ hNM)

/-- C3: the overlap-merge consolidation pass is idempotent on its own output:
re-applying merge_overlapping_regions with the same time threshold to its
result changes nothing. -/
theorem claim_C3_merge_idempotent (tt : Int) (a : TimedSubtitleAnalysis) :
    merge_overlapping_regions tt (merge_overlapping_regions tt a) =
      merge_overlapping_regions tt a := by
  by_cases h : a.timed_regions = []
  · simp [merge_overlapping_regions, h]
  · by_cases h2 : merge_regions_list tt a.timed_regions = []
    · simp [merge_overlapping_regions, h, h2]
    · simp [merge_overlapping_regions, h, h2, merge_regions_list_idem]

/-- The merge condition exactly as the spec words it for C4: all five of
x within 20, y within 20, width within 30, height within 20, and the candidate
starting at most time_threshold frames after the last accepted region ends. -/
def specMergeCond (last candidate : TimedSubtitleRegion) (time_threshold : Int) : Prop :=
  |candidate.x - last.x| ≤ 20 ∧ |candidate.y - last.y| ≤ 20 ∧
  |candidate.width - last.width| ≤ 30 ∧ |candidate.height - last.height| ≤ 20 ∧
  candidate.start_frame - last.end_frame ≤ time_threshold

instance (last candidate : TimedSubtitleRegion) (tt : Int) :
    Decidable (specMergeCond last candidate tt) := by
  unfold specMergeCond
  exact inferInstance

/-- The merge action exactly as the spec words it for C4: last takes the
candidate's end_frame, the confidence average, and the candidate's text joined
by the delimiter exactly when non-empty and not already a substring. -/
def specMergedRegion (last candidate : TimedSubtitleRegion) : TimedSubtitleRegion :=
  { last with
    end_frame := candidate.end_frame
    confidence := (last.confidence + candidate.confidence) / 2
    text_content :=
      if candidate.text_content ≠ "" ∧
          pyStrIn candidate.text_content last.text_content = false then
        last.text_content ++ " | " ++ candidate.text_content
      else last.text_content }

/-- C4: one step of the merge walk behaves exactly as the spec describes: the
candidate is merged into the last accepted region precisely when all five
conditions hold, producing the spec's merged record, and otherwise the
candidate becomes the new last accepted region. -/
theorem claim_C4_merge_step (tt : Int) (last candidate : TimedSubtitleRegion)
    (rest : List TimedSubtitleRegion) :
    mergeLoop tt last (candidate :: rest) =
      if specMergeCond last candidate tt then
        mergeLoop tt (specMergedRegion last candidate) rest
      else last :: mergeLoop tt candidate rest := by
  by_cases hc : specMergeCond last candidate tt
  · rw [if_pos hc]
    simp only [mergeLoop]
    rw [if_pos (show canMerge last candidate tt from hc)]
    rfl
  · rw [if_neg hc]
    simp only [mergeLoop]
    rw [if_neg (show ¬ canMerge last candidate tt from hc)]

lemma motionStep_fixed (fps : ℚ) (s : Int) :
    ∀ (rest : List ChangeEvent),
      rest.foldl (motionStep fps) ([], some s) = ([], some s)
  | [] => rfl
  | c :: rest => by
    rw [List.foldl_cons]
    rw [show motionStep fps ([], some s) c = ([], some s) from rfl]
    exact motionStep_fixed fps s rest

lemma motionSegments_eq (fps : ℚ) (c0 : ChangeEvent) (rest : List ChangeEvent)
    (lastC : ChangeEvent) (h : (c0 :: rest).getLast? = some lastC) :
    motionSegments fps (c0 :: rest) = [⟨c0.frame_no, lastC.frame_no, rest.length + 1⟩] := by
  unfold motionSegments
  simp only [List.foldl_cons]
  rw [show motionStep fps ([], none) c0 = ([], some c0.frame_no) from rfl]
  rw [motionStep_fixed fps c0.frame_no rest]
  rw [h]
  simp

/-- C5 (code evaluation at the failing input): two change events 10000 frames
apart at 30 fps — a gap far beyond 5 seconds (150 frames) — are still grouped
into a single segment, which, holding 2 events, produces one region spanning
frames 0 to 10000. The claim instead requires the gap to split the events into
two one-event segments, producing no region at all: the segment-splitting
branch of _analyze_motion_results is dead code. -/
theorem claim_C5_gap_never_splits :
    (analyze_motion_results ⟨1280, 720, 30, 20000⟩
        [⟨0, 1/5, -200⟩, ⟨10000, 1/5, 9800⟩]).map
      (fun r => (r.start_frame, r.end_frame)) = [(0, 10000)] ∧
    ((10000 : ℚ) - 0 > 30 * 5) := by
  constructor
  · rfl
  · norm_num

/-- Rounding to the nearest integer (used to state the claim's formula
round(fps × 2.5)). -/
def specRound (q : ℚ) : Int := ratFloor (q + 1 / 2)

/-- The per-side time expansion the claim asserts for the OCR path:
round(fps × 2.5) / 2. -/
def claimHalfExpansion (fps : ℚ) : Int := Int.fdiv (specRound (fps * (5 / 2))) 2

/-- The per-side time expansion the code actually uses for the OCR path:
int(fps * 2.5) // 2, i.e. truncation before the halving. -/
def codeHalfExpansion (fps : ℚ) : Int := Int.fdiv (pyInt (fps * (5 / 2))) 2

/-- C7 (counterexample): at fps = 23.96 a single-hit cluster at frame 100 with
total_frames = 1000 is emitted with time range (71, 129): the code truncates
fps × 2.5 = 59.9 to 59 before halving (59 // 2 = 29), while the claim's
round(fps × 2.5) / 2 = 60 / 2 = 30 would give (70, 130). -/
theorem claim_C7_counterexample :
    (analyze_ocr_results ⟨1280, 720, 599 / 25, 1000⟩
        [⟨100, 10, 600, 200, 30, "t", 9 / 10⟩]).map
      (fun r => (r.start_frame, r.end_frame)) = [(71, 129)] ∧
    max 0 (100 - claimHalfExpansion (599 / 25)) = 70 ∧
    min (1000 - 1) (100 + claimHalfExpansion (599 / 25)) = 130 ∧
    (((71 : Int), (129 : Int)) ≠ ((70 : Int), (130 : Int))) := by
  refine ⟨?_, ?_, ?_, by decide⟩
  · with_unfolding_all decide
  · with_unfolding_all decide
  · with_unfolding_all decide

/-- C7 (amended): for every cluster, the emitted region's time range is the
min/max cluster hit frame expanded outward by int(fps × 2.5) // 2 (truncation,
then integer floor division by two) on each side, then clipped to
[0, total_frames − 1]. -/
theorem claim_C7_amended_expansion (info : VideoInfo) (cluster : List OcrHit) :
    (regionOfOcrCluster info cluster).start_frame =
      max 0 (pyMin (cluster.map OcrHit.frame_no) - codeHalfExpansion info.fps) ∧
    (regionOfOcrCluster info cluster).end_frame =
      min (info.total_frames - 1)
        (pyMax (cluster.map OcrHit.frame_no) + codeHalfExpansion info.fps) :=
  ⟨rfl, rfl⟩

lemma foldl_min_le_init (l : List Int) (a : Int) : l.foldl min a ≤ a := by
  induction l generalizing a with
  | nil => exact le_refl a
  | cons b t ih => exact le_trans (ih (min a b)) (min_le_left a b)

lemma foldl_min_le_mem (l : List Int) (a v : Int) (hv : v ∈ l) : l.foldl min a ≤ v := by
  induction l generalizing a with
  | nil => cases hv
  | cons b t ih =>
    rcases List.mem_cons.mp hv with h | h
    · subst h
      exact le_trans (foldl_min_le_init t (min a v)) (min_le_right a v)
    · exact ih (min a b) h

lemma foldl_min_mem (l : List Int) (a : Int) : l.foldl min a = a ∨ l.foldl min a ∈ l := by
  induction l generalizing a with
  | nil => exact Or.inl rfl
  | cons b t ih =>
    rcases ih (min a b) with h | h
    · rcases min_choice a b with hm | hm
      · exact Or.inl (by rw [List.foldl_cons, h, hm])
      · refine Or.inr ?_
        rw [List.foldl_cons, h, hm]
        exact List.mem_cons_self b t
    · exact Or.inr (List.mem_cons_of_mem b h)

lemma foldl_max_init_le (l : List Int) (a : Int) : a ≤ l.foldl max a := by
  induction l generalizing a with
  | nil => exact le_refl a
  | cons b t ih => exact le_trans (le_max_left a b) (ih (max a b))

lemma foldl_max_mem_le (l : List Int) (a v : Int) (hv : v ∈ l) : v ≤ l.foldl max a := by
  induction l generalizing a with
  | nil => cases hv
  | cons b t ih =>
    rcases List.mem_cons.mp hv with h | h
    · subst h
      exact le_trans (le_max_right a v) (foldl_max_init_le t (max a v))
    · exact ih (max a b) h

lemma foldl_max_mem (l : List Int) (a : Int) : l.foldl max a = a ∨ l.foldl max a ∈ l := by
  induction l generalizing a with
  | nil => exact Or.inl rfl
  | cons b t ih =>
    rcases ih (max a b) with h | h
    · rcases max_choice a b with hm | hm
      · exact Or.inl (by rw [List.foldl_cons, h, hm])
      · refine Or.inr ?_
        rw [List.foldl_cons, h, hm]
        exact List.mem_cons_self b t
    · exact Or.inr (List.mem_cons_of_mem b h)

lemma pyMin_mem (l : List Int) (h : l ≠ []) : pyMin l ∈ l := by
  match l with
  | [] => exact absurd rfl h
  | a :: t =>
    rcases foldl_min_mem t a with h1 | h1
    · rw [pyMin, h1]
      exact List.mem_cons_self a t
    · exact List.mem_cons_of_mem a h1

lemma pyMin_le (l : List Int) (v : Int) (hv : v ∈ l) : pyMin l ≤ v := by
  match l with
  | [] => cases hv
  | a :: t =>
    rcases List.mem_cons.mp hv with h | h
    · subst h
      rw [pyMin]
      exact foldl_min_le_init t v
    · exact foldl_min_le_mem t a v h

lemma pyMax_mem (l : List Int) (h : l ≠ []) : pyMax l ∈ l := by
  match l with
  | [] => exact absurd rfl h
  | a :: t =>
    rcases foldl_max_mem t a with h1 | h1
    · rw [pyMax, h1]
      exact List.mem_cons_self a t
    · exact List.mem_cons_of_mem a h1

lemma le_pyMax (l : List Int) (v : Int) (hv : v ∈ l) : v ≤ pyMax l := by
  match l with
  | [] => cases hv
  | a :: t =>
    rcases List.mem_cons.mp hv with h | h
    · subst h
      rw [pyMax]
      exact foldl_max_init_le t v
    · exact foldl_max_mem_le t a v h

lemma pyMin_le_pyMax (l : List Int) (h : l ≠ []) : pyMin l ≤ pyMax l :=
  pyMin_le l (pyMax l) (pyMax_mem l h)

lemma list_sum_le_length_mul (l : List ℚ) (B : ℚ) (h : ∀ v ∈ l, v ≤ B) :
    l.sum ≤ (l.length : ℚ) * B := by
  induction l with
  | nil => simp
  | cons a t ih =>
    have ha : a ≤ B := h a (List.mem_cons_self a t)
    have ht : t.sum ≤ (t.length : ℚ) * B :=
      ih (fun v hv => h v (List.mem_cons_of_mem a hv))
    simp only [List.sum_cons, List.length_cons]
    push_cast
    nlinarith [ha, ht]

lemma ratMean_le (l : List ℚ) (B : ℚ) (hne : l ≠ []) (h : ∀ v ∈ l, v ≤ B) :
    ratMean l ≤ B := by
  have hlen : (0 : ℚ) < (l.length : ℚ) := by
    have : 0 < l.length := List.length_pos.mpr hne
    exact_mod_cast this
  rw [ratMean, div_le_iff₀ hlen]
  calc l.sum ≤ (l.length : ℚ) * B := list_sum_le_length_mul l B h
    _ = B * (l.length : ℚ) := mul_comm _ _

lemma ratMean_nonneg (l : List ℚ) (h : ∀ v ∈ l, 0 ≤ v) : 0 ≤ ratMean l := by
  have hs : 0 ≤ l.sum := List.sum_nonneg h
  have hl : (0 : ℚ) ≤ (l.length : ℚ) := by positivity
  exact div_nonneg hs hl

lemma ratMean_map_add (c : List OcrHit) (f g : OcrHit → Int) :
    ratMean (c.map (fun r => (f r : ℚ))) + ratMean (c.map (fun r => (g r : ℚ))) =
      ratMean (c.map (fun r => ((f r + g r : Int) : ℚ))) := by
  have hsum : ∀ (t : List OcrHit),
      (t.map (fun r => (f r : ℚ))).sum + (t.map (fun r => (g r : ℚ))).sum =
        (t.map (fun r => ((f r + g r : Int) : ℚ))).sum := by
    intro t
    induction t with
    | nil => simp
    | cons a s ih =>
      simp only [List.map_cons, List.sum_cons]
      push_cast
      push_cast at ih
      linarith [ih]
  unfold ratMean
  simp only [List.length_map]
  rw [div_add_div_same, hsum c]

/-- The invariant claimed for every emitted region: a well-formed clipped time
range and a bounding box inside the frame. -/
def regionInv (info : VideoInfo) (r : TimedSubtitleRegion) : Prop :=
  0 ≤ r.start_frame ∧ r.start_frame ≤ r.end_frame ∧
  r.end_frame ≤ info.total_frames - 1 ∧
  0 ≤ r.x ∧ r.x + r.width ≤ info.width ∧ 0 ≤ r.y ∧ r.y + r.height ≤ info.height

/-- Bounds satisfied by the OCR hits the sampling loop produces: frame number
inside the video and hit box inside the frame. -/
def ocrHitInBounds (info : VideoInfo) (h : OcrHit) : Prop :=
  0 ≤ h.frame_no ∧ h.frame_no ≤ info.total_frames - 1 ∧
  0 ≤ h.x ∧ 0 ≤ h.width ∧ h.x + h.width ≤ info.width ∧
  0 ≤ h.y ∧ 0 ≤ h.height ∧ h.y + h.height ≤ info.height

/-- Bounds satisfied by the edge hits the sampling loop produces. -/
def edgeHitInBounds (info : VideoInfo) (h : EdgeHit) : Prop :=
  0 ≤ h.frame_no ∧ h.frame_no ≤ info.total_frames - 1 ∧
  0 ≤ h.x ∧ 0 ≤ h.width ∧ h.x + h.width ≤ info.width ∧
  0 ≤ h.y ∧ 0 ≤ h.height ∧ h.y + h.height ≤ info.height

instance (info : VideoInfo) (h : OcrHit) : Decidable (ocrHitInBounds info h) := by
  unfold ocrHitInBounds
  exact inferInstance

instance (info : VideoInfo) (h : EdgeHit) : Decidable (edgeHitInBounds info h) := by
  unfold edgeHitInBounds
  exact inferInstance

lemma pyInt_nonneg (q : ℚ) (h : 0 ≤ q) : 0 ≤ pyInt q := by
  rw [pyInt_eq_floor q h]
  exact Int.le_floor.mpr (by exact_mod_cast h)

lemma halfExp_nonneg (fps m : ℚ) (hf : 0 ≤ fps) (hm : 0 ≤ m) :
    0 ≤ Int.fdiv (pyInt (fps * m)) 2 := by
  rw [Int.fdiv_eq_ediv _ (by norm_num : (0 : Int) ≤ 2)]
  exact Int.ediv_nonneg (pyInt_nonneg _ (mul_nonneg hf hm)) (by norm_num)

lemma clip_range (s e T k : Int) (h0 : 0 ≤ s) (hse : s ≤ e) (heT : e ≤ T - 1)
    (hk : 0 ≤ k) :
    0 ≤ max 0 (s - k) ∧ max 0 (s - k) ≤ min (T - 1) (e + k) ∧
    min (T - 1) (e + k) ≤ T - 1 := by
  refine ⟨le_max_left 0 _, ?_, min_le_left _ _⟩
  apply max_le
  · apply le_min <;> linarith
  · apply le_min <;> linarith

lemma pyInt_mean_pair (c : List OcrHit) (hne : c ≠ []) (f g : OcrHit → Int) (W : Int)
    (hfg : ∀ h ∈ c, f h + g h ≤ W) (hf0 : ∀ h ∈ c, 0 ≤ f h) (hg0 : ∀ h ∈ c, 0 ≤ g h) :
    0 ≤ pyInt (ratMean (c.map (fun r => (f r : ℚ)))) ∧
    pyInt (ratMean (c.map (fun r => (f r : ℚ)))) +
      pyInt (ratMean (c.map (fun r => (g r : ℚ)))) ≤ W := by
  have hmf0 : 0 ≤ ratMean (c.map (fun r => (f r : ℚ))) := by
    apply ratMean_nonneg
    intro v hv
    obtain ⟨h, hh, rfl⟩ := List.mem_map.mp hv
    exact_mod_cast hf0 h hh
  have hmg0 : 0 ≤ ratMean (c.map (fun r => (g r : ℚ))) := by
    apply ratMean_nonneg
    intro v hv
    obtain ⟨h, hh, rfl⟩ := List.mem_map.mp hv
    exact_mod_cast hg0 h hh
  have hmapne : c.map (fun r => ((f r + g r : Int) : ℚ)) ≠ [] := by
    intro hc
    exact hne (List.map_eq_nil_iff.mp hc)
  have hsum : ratMean (c.map (fun r => ((f r + g r : Int) : ℚ))) ≤ (W : ℚ) := by
    apply ratMean_le _ _ hmapne
    intro v hv
    obtain ⟨h, hh, rfl⟩ := List.mem_map.mp hv
    exact_mod_cast hfg h hh
  have hadd := ratMean_map_add c f g
  refine ⟨pyInt_nonneg _ hmf0, ?_⟩
  rw [pyInt_eq_floor _ hmf0, pyInt_eq_floor _ hmg0]
  have h1 : (⌊ratMean (c.map (fun r => (f r : ℚ)))⌋ : ℚ) ≤
      ratMean (c.map (fun r => (f r : ℚ))) := Int.floor_le _
  have h2 : (⌊ratMean (c.map (fun r => (g r : ℚ)))⌋ : ℚ) ≤
      ratMean (c.map (fun r => (g r : ℚ))) := Int.floor_le _
  have hq : ((⌊ratMean (c.map (fun r => (f r : ℚ)))⌋ +
      ⌊ratMean (c.map (fun r => (g r : ℚ)))⌋ : Int) : ℚ) ≤ (W : ℚ) := by
    push_cast
    linarith [hadd, hsum]
  exact_mod_cast hq

lemma regionInv_ocr (info : VideoInfo) (cluster : List OcrHit) (hne : cluster ≠ [])
    (hfps : 0 ≤ info.fps) (hb : ∀ h ∈ cluster, ocrHitInBounds info h) :
    regionInv info (regionOfOcrCluster info cluster) := by
  have hframes : cluster.map OcrHit.frame_no ≠ [] := by
    intro hc
    exact hne (List.map_eq_nil_iff.mp hc)
  obtain ⟨h1, hh1, hfe1⟩ := List.mem_map.mp (pyMin_mem _ hframes)
  obtain ⟨h2, hh2, hfe2⟩ := List.mem_map.mp (pyMax_mem _ hframes)
  have hb1 := hb h1 hh1
  have hb2 := hb h2 hh2
  have hs0 : 0 ≤ pyMin (cluster.map OcrHit.frame_no) := by
    rw [← hfe1]
    exact hb1.1
  have hse : pyMin (cluster.map OcrHit.frame_no) ≤ pyMax (cluster.map OcrHit.frame_no) :=
    pyMin_le_pyMax _ hframes
  have heT : pyMax (cluster.map OcrHit.frame_no) ≤ info.total_frames - 1 := by
    rw [← hfe2]
    exact hb2.2.1
  have hk : 0 ≤ Int.fdiv (pyInt (info.fps * (5 / 2 : ℚ))) 2 :=
    halfExp_nonneg info.fps (5 / 2) hfps (by norm_num)
  have hclip := clip_range (pyMin (cluster.map OcrHit.frame_no))
    (pyMax (cluster.map OcrHit.frame_no)) info.total_frames
    (Int.fdiv (pyInt (info.fps * (5 / 2 : ℚ))) 2) hs0 hse heT hk
  have hx := pyInt_mean_pair cluster hne OcrHit.x OcrHit.width info.width
    (fun h hh => (hb h hh).2.2.2.2.1) (fun h hh => (hb h hh).2.2.1)
    (fun h hh => (hb h hh).2.2.2.1)
  have hy := pyInt_mean_pair cluster hne OcrHit.y OcrHit.height info.height
    (fun h hh => (hb h hh).2.2.2.2.2.2.2) (fun h hh => (hb h hh).2.2.2.2.2.1)
    (fun h hh => (hb h hh).2.2.2.2.2.2.1)
  exact ⟨hclip.1, hclip.2.1, hclip.2.2, hx.1, hx.2, hy.1, hy.2⟩

lemma regionInv_edge (info : VideoInfo) (group : List EdgeHit) (hne : group ≠ [])
    (hfps : 0 ≤ info.fps) (hb : ∀ h ∈ group, edgeHitInBounds info h) :
    regionInv info (regionOfEdgeGroup info group) := by
  have hframes : group.map EdgeHit.frame_no ≠ [] := by
    intro hc
    exact hne (List.map_eq_nil_iff.mp hc)
  obtain ⟨h1, hh1, hfe1⟩ := List.mem_map.mp (pyMin_mem _ hframes)
  obtain ⟨h2, hh2, hfe2⟩ := List.mem_map.mp (pyMax_mem _ hframes)
  have hs0 : 0 ≤ pyMin (group.map EdgeHit.frame_no) := by
    rw [← hfe1]
    exact (hb h1 hh1).1
  have hse : pyMin (group.map EdgeHit.frame_no) ≤ pyMax (group.map EdgeHit.frame_no) :=
    pyMin_le_pyMax _ hframes
  have heT : pyMax (group.map EdgeHit.frame_no) ≤ info.total_frames - 1 := by
    rw [← hfe2]
    exact (hb h2 hh2).2.1
  have hk : 0 ≤ Int.fdiv (pyInt (info.fps * 3)) 2 :=
    halfExp_nonneg info.fps 3 hfps (by norm_num)
  have hclip := clip_range (pyMin (group.map EdgeHit.frame_no))
    (pyMax (group.map EdgeHit.frame_no)) info.total_frames
    (Int.fdiv (pyInt (info.fps * 3)) 2) hs0 hse heT hk
  have hxne : group.map EdgeHit.x ≠ [] := by
    intro hc
    exact hne (List.map_eq_nil_iff.mp hc)
  have hxwne : group.map (fun r => r.x + r.width) ≠ [] := by
    intro hc
    exact hne (List.map_eq_nil_iff.mp hc)
  have hyne : group.map EdgeHit.y ≠ [] := by
    intro hc
    exact hne (List.map_eq_nil_iff.mp hc)
  have hyhne : group.map (fun r => r.y + r.height) ≠ [] := by
    intro hc
    exact hne (List.map_eq_nil_iff.mp hc)
  obtain ⟨hx1, hhx1, hfex⟩ := List.mem_map.mp (pyMin_mem _ hxne)
  obtain ⟨hx2, hhx2, hfexw⟩ := List.mem_map.mp (pyMax_mem _ hxwne)
  obtain ⟨hy1, hhy1, hfey⟩ := List.mem_map.mp (pyMin_mem _ hyne)
  obtain ⟨hy2, hhy2, hfeyh⟩ := List.mem_map.mp (pyMax_mem _ hyhne)
  have hx0 : 0 ≤ pyMin (group.map EdgeHit.x) := by
    rw [← hfex]
    exact (hb hx1 hhx1).2.2.1
  have hxW : pyMax (group.map (fun r => r.x + r.width)) ≤ info.width := by
    rw [← hfexw]
    exact (hb hx2 hhx2).2.2.2.2.1
  have hy0 : 0 ≤ pyMin (group.map EdgeHit.y) := by
    rw [← hfey]
    exact (hb hy1 hhy1).2.2.2.2.2.1
  have hyH : pyMax (group.map (fun r => r.y + r.height)) ≤ info.height := by
    rw [← hfeyh]
    exact (hb hy2 hhy2).2.2.2.2.2.2.2
  refine ⟨hclip.1, hclip.2.1, hclip.2.2, hx0, ?_, hy0, ?_⟩
  · show pyMin (group.map EdgeHit.x) +
      (pyMax (group.map (fun r => r.x + r.width)) - pyMin (group.map EdgeHit.x)) ≤
        info.width
    linarith
  · show pyMin (group.map EdgeHit.y) +
      (pyMax (group.map (fun r => r.y + r.height)) - pyMin (group.map EdgeHit.y)) ≤
        info.height
    linarith

lemma pyEnum_snd_mem {α : Type} : ∀ (n : Nat) (l : List α) (p : Nat × α),
    p ∈ pyEnum n l → p.2 ∈ l
  | _, [], p, h => absurd h (List.not_mem_nil p)
  | n, a :: t, p, h => by
    rcases List.mem_cons.mp h with h1 | h1
    · rw [h1]
      exact List.mem_cons_self a t
    · exact List.mem_cons_of_mem a (pyEnum_snd_mem (n + 1) t p h1)

lemma clusterInner_structure (r1 : OcrHit) (thr : Int) :
    ∀ (pairs : List (Nat × OcrHit)) (cluster : List OcrHit) (used : List Nat),
      ∃ extra, (clusterInner r1 thr pairs cluster used).1 = cluster ++ extra ∧
        ∀ x ∈ extra, ∃ p, p ∈ pairs ∧ x = p.2
  | [], cluster, _ => ⟨[], by simp [clusterInner], by simp⟩
  | jp :: rest, cluster, used => by
    by_cases h1 : jp.1 ∈ used
    · obtain ⟨extra, he, hm⟩ := clusterInner_structure r1 thr rest cluster used
      refine ⟨extra, ?_, ?_⟩
      · simp only [clusterInner]
        rw [if_pos h1]
        exact he
      · intro x hx
        obtain ⟨p, hp, hxe⟩ := hm x hx
        exact ⟨p, List.mem_cons_of_mem jp hp, hxe⟩
    · by_cases h2 : hitCompatible r1 jp.2 thr
      · obtain ⟨extra, he, hm⟩ :=
          clusterInner_structure r1 thr rest (cluster ++ [jp.2]) (jp.1 :: used)
        refine ⟨[jp.2] ++ extra, ?_, ?_⟩
        · simp only [clusterInner]
          rw [if_neg h1, if_pos h2, he, List.append_assoc]
        · intro x hx
          rcases List.mem_append.mp hx with hx1 | hx1
          · have hxe : x = jp.2 := by simpa using hx1
            exact ⟨jp, List.mem_cons_self jp rest, hxe⟩
          · obtain ⟨p, hp, hxe⟩ := hm x hx1
            exact ⟨p, List.mem_cons_of_mem jp hp, hxe⟩
      · obtain ⟨extra, he, hm⟩ := clusterInner_structure r1 thr rest cluster used
        refine ⟨extra, ?_, fun x hx => ?_⟩
        · simp only [clusterInner]
          rw [if_neg h1, if_neg h2]
          exact he
        · obtain ⟨p, hp, hxe⟩ := hm x hx
          exact ⟨p, List.mem_cons_of_mem jp hp, hxe⟩

lemma clusterOuter_good (thr : Int) (pairs : List (Nat × OcrHit)) :
    ∀ (rest : List (Nat × OcrHit)) (clusters : List (List OcrHit)) (used : List Nat),
      (∀ p ∈ rest, p ∈ pairs) →
      (∀ c ∈ clusters, c ≠ [] ∧ ∀ x ∈ c, ∃ p, p ∈ pairs ∧ x = p.2) →
      ∀ c ∈ clusterOuter thr pairs rest clusters used,
        c ≠ [] ∧ ∀ x ∈ c, ∃ p, p ∈ pairs ∧ x = p.2
  | [], clusters, used, _, hcl => by
    intro c hc
    simp only [clusterOuter] at hc
    exact hcl c hc
  | ip :: rest, clusters, used, hrest, hcl => by
    intro c hc
    simp only [clusterOuter] at hc
    by_cases h1 : ip.1 ∈ used
    · rw [if_pos h1] at hc
      exact clusterOuter_good thr pairs rest clusters used
        (fun p hp => hrest p (List.mem_cons_of_mem ip hp)) hcl c hc
    · rw [if_neg h1] at hc
      by_cases h2 : (clusterInner ip.2 thr pairs [ip.2] (ip.1 :: used)).1 = []
      · rw [if_pos h2] at hc
        exact clusterOuter_good thr pairs rest clusters _
          (fun p hp => hrest p (List.mem_cons_of_mem ip hp)) hcl c hc
      · rw [if_neg h2] at hc
        refine clusterOuter_good thr pairs rest _ _
          (fun p hp => hrest p (List.mem_cons_of_mem ip hp)) ?_ c hc
        intro c' hc'
        rcases List.mem_append.mp hc' with hc1 | hc1
        · exact hcl c' hc1
        · have hce : c' = (clusterInner ip.2 thr pairs [ip.2] (ip.1 :: used)).1 := by
            simpa using hc1
          obtain ⟨extra, he, hm⟩ := clusterInner_structure ip.2 thr pairs [ip.2] (ip.1 :: used)
          refine ⟨?_, ?_⟩
          · rw [hce]
            exact h2
          · intro x hx
            rw [hce, he] at hx
            rcases List.mem_append.mp hx with hx1 | hx1
            · have hxe : x = ip.2 := by simpa using hx1
              exact ⟨ip, hrest ip (List.mem_cons_self ip rest), hxe⟩
            · exact hm x hx1

lemma cluster_regions_good (hits : List OcrHit) (thr : Int) :
    ∀ c ∈ cluster_regions hits thr, c ≠ [] ∧ ∀ x ∈ c, x ∈ hits := by
  intro c hc
  have hgood := clusterOuter_good thr (pyEnum 0 hits) (pyEnum 0 hits) [] []
    (fun p hp => hp) (by simp) c hc
  refine ⟨hgood.1, fun x hx => ?_⟩
  obtain ⟨p, hp, hxe⟩ := hgood.2 x hx
  rw [hxe]
  exact pyEnum_snd_mem 0 hits p hp

lemma edgeGroups_sub (info : VideoInfo) (hits : List EdgeHit) :
    ∀ g ∈ edgeGroups info hits, ∀ x ∈ g, x ∈ hits := by
  intro g hg x hx
  obtain ⟨k, _, rfl⟩ := List.mem_map.mp hg
  exact List.mem_of_mem_filter hx

lemma chain_head_le_getLast :
    ∀ (c0 : ChangeEvent) (rest : List ChangeEvent) (lastC : ChangeEvent),
      List.Chain' (fun a b : ChangeEvent => a.frame_no ≤ b.frame_no) (c0 :: rest) →
      (c0 :: rest).getLast? = some lastC → c0.frame_no ≤ lastC.frame_no
  | c0, [], lastC, _, h => by
    have hce : lastC = c0 := by simpa using h.symm
    rw [hce]
  | c0, b :: rest, lastC, hch, h => by
    have h1 : c0.frame_no ≤ b.frame_no := (List.chain'_cons.mp hch).1
    have h2 : b.frame_no ≤ lastC.frame_no :=
      chain_head_le_getLast b rest lastC (List.chain'_cons.mp hch).2
        (by rw [← h]; exact (List.getLast?_cons_cons ..).symm)
    exact le_trans h1 h2

lemma pyInt_mul_pair_le (W : Int) (hW : 0 ≤ W) (p q : ℚ) (hp : 0 ≤ p) (hq : 0 ≤ q)
    (hpq : p + q ≤ 1) :
    pyInt ((W : ℚ) * p) + pyInt ((W : ℚ) * q) ≤ W := by
  have hWq : (0 : ℚ) ≤ (W : ℚ) := by exact_mod_cast hW
  rw [pyInt_eq_floor _ (mul_nonneg hWq hp), pyInt_eq_floor _ (mul_nonneg hWq hq)]
  have h1 : (⌊(W : ℚ) * p⌋ : ℚ) ≤ (W : ℚ) * p := Int.floor_le _
  have h2 : (⌊(W : ℚ) * q⌋ : ℚ) ≤ (W : ℚ) * q := Int.floor_le _
  have hq2 : ((⌊(W : ℚ) * p⌋ + ⌊(W : ℚ) * q⌋ : Int) : ℚ) ≤ (W : ℚ) := by
    push_cast
    nlinarith [h1, h2, hWq, hpq]
  exact_mod_cast hq2

lemma regionInv_motion (info : VideoInfo) (changes : List ChangeEvent)
    (hW : 0 ≤ info.width) (hH : 0 ≤ info.height)
    (hch : ∀ c ∈ changes, 0 ≤ c.frame_no ∧ c.frame_no ≤ info.total_frames - 1)
    (hchain : List.Chain' (fun a b : ChangeEvent => a.frame_no ≤ b.frame_no) changes) :
    ∀ r ∈ analyze_motion_results info changes, regionInv info r := by
  intro r hr
  unfold analyze_motion_results at hr
  by_cases hemp : changes = []
  · rw [if_pos hemp] at hr
    cases hr
  · rw [if_neg hemp] at hr
    obtain ⟨c0, rest, rfl⟩ := List.exists_cons_of_ne_nil hemp
    have hg : (c0 :: rest).getLast? =
        some ((c0 :: rest).getLast (List.cons_ne_nil c0 rest)) :=
      List.getLast?_eq_getLast _ _
    rw [motionSegments_eq info.fps c0 rest _ hg] at hr
    obtain ⟨seg, hseg, hf⟩ := List.mem_filterMap.mp hr
    have hsege : seg = ⟨c0.frame_no,
        ((c0 :: rest).getLast (List.cons_ne_nil c0 rest)).frame_no, rest.length + 1⟩ := by
      simpa using hseg
    subst hsege
    by_cases h2 : 2 ≤ rest.length + 1
    · rw [if_pos h2] at hf
      have hre := Option.some.inj hf
      have hlmem : (c0 :: rest).getLast (List.cons_ne_nil c0 rest) ∈ c0 :: rest :=
        List.getLast_mem _
      refine hre ▸ ⟨?_, ?_, ?_, ?_, ?_, ?_, ?_⟩
      · exact (hch c0 (List.mem_cons_self c0 rest)).1
      · exact chain_head_le_getLast c0 rest _ hchain hg
      · exact (hch _ hlmem).2
      · exact pyInt_nonneg _ (mul_nonneg (by exact_mod_cast hW) (by norm_num))
      · exact pyInt_mul_pair_le info.width hW (1 / 10) (4 / 5) (by norm_num)
          (by norm_num) (by norm_num)
      · exact pyInt_nonneg _ (mul_nonneg (by exact_mod_cast hH) (by norm_num))
      · exact pyInt_mul_pair_le info.height hH (4 / 5) (3 / 20) (by norm_num)
          (by norm_num) (by norm_num)
    · rw [if_neg h2] at hf
      cases hf

/-- C6: under the bounds the sampling loops guarantee for their hits, every
region emitted by the OCR spatial-clustering path, the edge temporal-bucketing
path and the motion-segment path has a well-formed time range inside
[0, total_frames − 1] and a bounding box inside the frame. -/
theorem claim_C6_emitted_region_invariants (info : VideoInfo)
    (ocrHits : List OcrHit) (edgeHits : List EdgeHit) (changes : List ChangeEvent)
    (hfps : 0 ≤ info.fps) (hW : 0 ≤ info.width) (hH : 0 ≤ info.height)
    (hocr : ∀ h ∈ ocrHits, ocrHitInBounds info h)
    (hedge : ∀ h ∈ edgeHits, edgeHitInBounds info h)
    (hch : ∀ c ∈ changes, 0 ≤ c.frame_no ∧ c.frame_no ≤ info.total_frames - 1)
    (hchain : List.Chain' (fun a b : ChangeEvent => a.frame_no ≤ b.frame_no) changes) :
    (∀ r ∈ analyze_ocr_results info ocrHits, regionInv info r) ∧
    (∀ r ∈ analyze_edge_results info edgeHits, regionInv info r) ∧
    (∀ r ∈ analyze_motion_results info changes, regionInv info r) := by
  refine ⟨?_, ?_, regionInv_motion info changes hW hH hch hchain⟩
  · intro r hr
    unfold analyze_ocr_results at hr
    by_cases hemp : ocrHits = []
    · rw [if_pos hemp] at hr
      cases hr
    · rw [if_neg hemp] at hr
      obtain ⟨cluster, hcl, rfl⟩ := List.mem_map.mp hr
      have hgood := cluster_regions_good ocrHits 50 cluster hcl
      exact regionInv_ocr info cluster hgood.1 hfps (fun h hh => hocr h (hgood.2 h hh))
  · intro r hr
    unfold analyze_edge_results at hr
    by_cases hemp : edgeHits = []
    · rw [if_pos hemp] at hr
      cases hr
    · rw [if_neg hemp] at hr
      obtain ⟨g, hgm, hf⟩ := List.mem_filterMap.mp hr
      by_cases h2 : 2 ≤ g.length
      · rw [if_pos h2] at hf
        have hre := Option.some.inj hf
        have hne : g ≠ [] := by
          intro hg0
          rw [hg0] at h2
          simp at h2
        exact hre ▸ regionInv_edge info g hne hfps
          (fun h hh => hedge h (edgeGroups_sub info edgeHits g hgm h hh))
      · rw [if_neg h2] at hf
        cases hf

/-- Concrete video info used for the C6 witness. -/
def infoW : VideoInfo := ⟨100, 100, 10, 1000⟩

/-- Concrete OCR hits used for the C6 witness. -/
def ocrHitsW : List OcrHit := [⟨5, 10, 80, 20, 10, "hi", mkRat 9 10⟩]

/-- Concrete edge hits used for the C6 witness. -/
def edgeHitsW : List EdgeHit :=
  [⟨5, 10, 80, 20, 10, 1200, 4⟩, ⟨8, 10, 80, 20, 10, 1200, 4⟩]

/-- Concrete change events used for the C6 witness. -/
def changesW : List ChangeEvent := [⟨5, mkRat 1 5, -1⟩, ⟨8, mkRat 1 5, 5⟩]

/-- C6 (witness): the theorem applied to one OCR hit, two edge hits in the same
bucket, and two change events, all inside a 100×100, 1000-frame, 10 fps video. -/
theorem claim_C6_witness :
    ((0 : ℚ) ≤ infoW.fps ∧ (0 : Int) ≤ infoW.width ∧ (0 : Int) ≤ infoW.height ∧
      (∀ h ∈ ocrHitsW, ocrHitInBounds infoW h) ∧
      (∀ h ∈ edgeHitsW, edgeHitInBounds infoW h) ∧
      (∀ c ∈ changesW, 0 ≤ c.frame_no ∧ c.frame_no ≤ infoW.total_frames - 1) ∧
      List.Chain' (fun a b : ChangeEvent => a.frame_no ≤ b.frame_no) changesW) ∧
    ((∀ r ∈ analyze_ocr_results infoW ocrHitsW, regionInv infoW r) ∧
      (∀ r ∈ analyze_edge_results infoW edgeHitsW, regionInv infoW r) ∧
      (∀ r ∈ analyze_motion_results infoW changesW, regionInv infoW r)) :=
  ⟨⟨by decide, by decide, by decide, by decide, by decide, by decide,
      List.Chain'.cons (by decide) (List.chain'_singleton _)⟩,
    claim_C6_emitted_region_invariants infoW ocrHitsW edgeHitsW changesW
      (by decide) (by decide) (by decide) (by decide) (by decide) (by decide)
      (List.Chain'.cons (by decide) (List.chain'_singleton _))⟩

/-- C9: every 4-element flat region entry [x1,y1,x2,y2] is normalized into the
worker-facing (ymin, ymax, xmin, xmax) with xmin = min(x1,x2),
xmax = max(x1,x2), ymin = min(y1,y2), ymax = max(y1,y2), whatever corner order
the caller used; in particular [[50,100,10,80]] yields
xmin = 10, xmax = 50, ymin = 80, ymax = 100. -/
theorem claim_C9_region_normalization (x1 y1 x2 y2 : Int) (rest : List (List Int)) :
    normalize_regions ([x1, y1, x2, y2] :: rest) =
      (min y1 y2, max y1 y2, min x1 x2, max x1 x2) :: normalize_regions rest ∧
    normalize_regions [[50, 100, 10, 80]] = [(80, 100, 10, 50)] :=
  ⟨rfl, by decide⟩

end VSR
